import Mathlib

/-!
Shallow embedding of the simpleargs command-line argument lexer.

Raw tokens are modelled as follows: a Rust `String` token is a `List Char`
(its sequence of Unicode scalar values) and a Rust `OsString` token is a
`List Nat` (its sequence of bytes, each below 256).  Fallible operations
return `Except`, mirroring Rust's `Result`.
-/

/-- Embeds `is_arg_name` from src/arg.rs (also duplicated in src/parse.rs):
the character class of option names. -/
def is_arg_name (c : Char) : Bool :=
  decide (('a' ≤ c ∧ c ≤ 'z') ∨ ('A' ≤ c ∧ c ≤ 'Z') ∨ ('0' ≤ c ∧ c ≤ '9') ∨ c = '-' ∨ c = '_')

/-- Embeds the byte-level use `is_arg_name(c as char)` in the OsString
classifier: the byte value is reinterpreted as the Unicode code point. -/
def byte_is_arg_name (b : Nat) : Bool :=
  is_arg_name (Char.ofNat b)

/-- Embeds `ParsedArg<T>` from src/arg.rs.  The name field is kept at the
same representation as the raw token (`N`): for the String classifier the
name is a `List Char`, for the OsString classifier it is the `List Nat` of
ASCII bytes that `String::from_utf8_unchecked` decodes. -/
inductive ParsedArg (N T : Type) where
  | Positional (arg : T)
  | EndOfFlags
  | Named (name : N) (value : Option T)
deriving DecidableEq

/-- Embeds `body.iter().position(|&c| c == b'=')` followed by the
`(&body[..idx], Some(&body[idx + 1..]))` split in the OsString classifier:
the name is everything before the first `=` byte (61) and the value is
everything after it, or `none` when no `=` occurs. -/
def splitValue (body : List Nat) : List Nat × Option (List Nat) :=
  match body with
  | [] => ([], none)
  | b :: rest =>
    if b = 61 then ([], some rest)
    else
      let p := splitValue rest
      (b :: p.1, p.2)

/-- Embeds `body.find('=')` followed by the slicing split in the String
classifier, at character granularity. -/
def splitValueChr (body : List Char) : List Char × Option (List Char) :=
  match body with
  | [] => ([], none)
  | b :: rest =>
    if b = '=' then ([], some rest)
    else
      let p := splitValueChr rest
      (b :: p.1, p.2)

/-- Embeds the split-and-validate tail of `<OsString as ArgString>::parse_arg`
(src/arg.rs lines 77-91): `s` is the whole original token (for the error
return), `body` is the token with leading dashes stripped. -/
def parse_os_body (s body : List Nat) : Except (List Nat) (ParsedArg (List Nat) (List Nat)) :=
  let nv := splitValue body
  let name := nv.1
  if name.length = 0 ∨ name.headD 0 = 45 ∨ name.getLastD 0 = 45 ∨ ¬ name.all byte_is_arg_name
  then .error s
  else .ok (.Named name nv.2)

/-- Embeds `<OsString as ArgString>::parse_arg` from src/arg.rs.  Byte 45
is the dash. -/
def parse_arg_os (s : List Nat) : Except (List Nat) (ParsedArg (List Nat) (List Nat)) :=
  if s.length < 2 ∨ s.headD 0 ≠ 45 then .ok (.Positional s)
  else if s.getD 1 0 ≠ 45 then parse_os_body s (s.drop 1)
  else if s.length = 2 then .ok .EndOfFlags
  else parse_os_body s (s.drop 2)

/-- Embeds the split-and-validate tail of `<String as ArgString>::parse_arg`
(src/arg.rs lines 44-51).  Note: unlike the OsString implementation, the
String implementation checks only non-emptiness and the character class;
it does not reject names that start or end with a hyphen. -/
def parse_string_body (s body : List Char) : Except (List Char) (ParsedArg (List Char) (List Char)) :=
  let nv := splitValueChr body
  if nv.1.isEmpty ∨ ¬ nv.1.all is_arg_name
  then .error s
  else .ok (.Named nv.1 nv.2)

/-- Embeds `<String as ArgString>::parse_arg` from src/arg.rs (the
char-iterator walk over the leading dashes). -/
def parse_arg_string (s : List Char) : Except (List Char) (ParsedArg (List Char) (List Char)) :=
  match s with
  | [] => .ok (.Positional [])
  | c :: rest =>
    if c = '-' then
      match rest with
      | [] => .ok (.Positional (c :: rest))
      | c2 :: rest2 =>
        if c2 = '-' then
          if rest2 = [] then .ok .EndOfFlags
          else parse_string_body (c :: rest) rest2
        else parse_string_body (c :: rest) rest
    else .ok (.Positional (c :: rest))

/-- Embeds `OptionError` from src/error.rs.  `InvalidValue` abstracts away
its boxed dynamic cause, which carries no structure relevant here. -/
inductive OptionError where
  | Unknown
  | MissingParameter
  | UnexpectedParameter
  | InvalidUnicode
  | InvalidValue
deriving DecidableEq

/-- Embeds `UsageError<T>` from src/error.rs, generalised over the name
representation `N` (a Rust `String`). -/
inductive UsageError (N T : Type) where
  | InvalidArgument (arg : T)
  | UnexpectedArgument (arg : T)
  | MissingArgument (name : N)
  | InvalidOption (name : N) (value : Option T) (err : OptionError)
deriving DecidableEq

/-- Embeds the state of `Args<T>` from src/lib.rs: the remaining items of
the wrapped iterator plus the `allow_options` flag. -/
structure Args (T : Type) where
  args : List T
  allow_options : Bool
deriving DecidableEq

/-- Embeds `Args::from`: all tokens remaining, options allowed. -/
def Args.fromList {T : Type} (args : List T) : Args T :=
  { args := args, allow_options := true }

/-- Embeds `Arg<'a, T>` from src/lib.rs.  The `Named` variant carries the
fields of the `NamedArgument` handle (its borrowed stream is the state
threaded separately). -/
inductive Arg (N T : Type) where
  | Positional (arg : T)
  | Named (name : N) (data : Option T)
  | End
  | Error (err : UsageError N T)
deriving DecidableEq

/-- Embeds `Args::next` from src/lib.rs, parameterised by the classifier
`pa` (the `ArgString::parse_arg` of the item type).  Returns the emitted
item together with the updated stream state. -/
def Args.next {N T : Type} (pa : T → Except T (ParsedArg N T)) (s : Args T) :
    Arg N T × Args T :=
  match s.args with
  | [] => (.End, s)
  | arg :: rest =>
    if !s.allow_options then (.Positional arg, { s with args := rest })
    else
      match pa arg with
      | .error arg => (.Error (.InvalidArgument arg), { s with args := rest })
      | .ok (.Positional a) => (.Positional a, { s with args := rest })
      | .ok .EndOfFlags =>
        match rest with
        | [] => (.End, { args := [], allow_options := false })
        | x :: rest2 => (.Positional x, { args := rest2, allow_options := false })
      | .ok (.Named name data) => (.Named name data, { s with args := rest })

/-- The mutable state visible to `Value` in src/lib.rs: the `data` field of
the `NamedArgument`, the remaining iterator of the borrowed `Args`, and the
`consumed` flag. -/
structure ValueState (T : Type) where
  data : Option T
  args : List T
  consumed : Bool
deriving DecidableEq

/-- Embeds `Value::value` from src/lib.rs: sets `consumed`, returns the
inline value if present, otherwise pulls the next raw token from the
stream (`get_or_insert` records it in `data`), failing with
`MissingParameter` when the stream is exhausted. -/
def Value.value {T : Type} (s : ValueState T) : Except OptionError T × ValueState T :=
  match s.data with
  | some x => (.ok x, { s with consumed := true })
  | none =>
    match s.args with
    | [] => (.error .MissingParameter, { s with consumed := true })
    | x :: rest => (.ok x, { data := some x, args := rest, consumed := true })

/-- The observable behaviour of a handler closure passed to
`NamedArgument::parse`.  Because `Value` is consumed by value, a handler
either never resolves the value and just returns a result, or resolves it
exactly once and computes its result from what `Value::value` returned
(`as_str`/`as_osstr` are compositions on top of that result). -/
inductive Handler (T U : Type) where
  | noValue (result : Except OptionError U)
  | withValue (k : Except OptionError T → Except OptionError U)

/-- Embeds `NamedArgument::parse` from src/lib.rs: runs the handler with a
fresh `consumed = false` flag; a successful handler that left an inline
value untouched turns into `UnexpectedParameter`; any handler error is
wrapped as `InvalidOption` carrying the name and the current (possibly
pulled) value. -/
def NamedArgument.parse {N T U : Type} (name : N) (data : Option T) (s : Args T)
    (f : Handler T U) : Except (UsageError N T) U × Args T :=
  match f with
  | .noValue r =>
    match r with
    | .error e => (.error (.InvalidOption name data e), s)
    | .ok u =>
      if data.isNone then (.ok u, s)
      else (.error (.InvalidOption name data .UnexpectedParameter), s)
  | .withValue k =>
    let p := Value.value { data := data, args := s.args, consumed := false }
    match k p.1 with
    | .ok u => (.ok u, { s with args := p.2.args })
    | .error e => (.error (.InvalidOption name p.2.data e), { s with args := p.2.args })

namespace Parse

/-- Embeds the free function `parse_arg` from src/parse.rs (an earlier
revision of the OsString classifier that reports failures through the
consolidated `UsageError` instead of returning the token). -/
def parse_arg (arg : List Nat) :
    Except (UsageError (List Nat) (List Nat)) (ParsedArg (List Nat) (List Nat)) :=
  if arg.length < 2 ∨ arg.headD 0 ≠ 45 then .ok (.Positional arg)
  else
    let body := if arg.getD 1 0 ≠ 45 then arg.drop 1 else arg.drop 2
    if arg.getD 1 0 = 45 ∧ arg.length = 2 then .ok .EndOfFlags
    else
      let nv := splitValue body
      let name := nv.1
      if name.length = 0 ∨ name.headD 0 = 45 ∨ name.getLastD 0 = 45 ∨
          ¬ name.all byte_is_arg_name
      then .error (.InvalidArgument arg)
      else .ok (.Named name nv.2)

end Parse

/-- A UTF-8 continuation byte, `10xxxxxx`. -/
def is_utf8_cont (b : Nat) : Bool := 128 ≤ b && b ≤ 191

/-- The remainder of a byte sequence after removing one well-formed UTF-8
encoded code point at its head, following the standard byte-range table
(RFC 3629): overlong encodings and surrogate code points are excluded.
Returns `none` when the head is not a well-formed sequence. -/
def utf8_first : List Nat → Option (List Nat)
  | [] => none
  | b :: rest =>
    if b ≤ 127 then some rest
    else if 194 ≤ b ∧ b ≤ 223 then
      match rest with
      | c1 :: rest1 => if is_utf8_cont c1 then some rest1 else none
      | [] => none
    else if b = 224 then
      match rest with
      | c1 :: c2 :: rest2 =>
        if (160 ≤ c1 && c1 ≤ 191) && is_utf8_cont c2 then some rest2 else none
      | _ => none
    else if (225 ≤ b ∧ b ≤ 236) ∨ b = 238 ∨ b = 239 then
      match rest with
      | c1 :: c2 :: rest2 =>
        if is_utf8_cont c1 && is_utf8_cont c2 then some rest2 else none
      | _ => none
    else if b = 237 then
      match rest with
      | c1 :: c2 :: rest2 =>
        if (128 ≤ c1 && c1 ≤ 159) && is_utf8_cont c2 then some rest2 else none
      | _ => none
    else if b = 240 then
      match rest with
      | c1 :: c2 :: c3 :: rest3 =>
        if (144 ≤ c1 && c1 ≤ 191) && is_utf8_cont c2 && is_utf8_cont c3 then some rest3 else none
      | _ => none
    else if 241 ≤ b ∧ b ≤ 243 then
      match rest with
      | c1 :: c2 :: c3 :: rest3 =>
        if is_utf8_cont c1 && is_utf8_cont c2 && is_utf8_cont c3 then some rest3 else none
      | _ => none
    else if b = 244 then
      match rest with
      | c1 :: c2 :: c3 :: rest3 =>
        if (128 ≤ c1 && c1 ≤ 143) && is_utf8_cont c2 && is_utf8_cont c3 then some rest3 else none
      | _ => none
    else none

/-- Fuel-bounded iteration of `utf8_first`; any fuel at least the length of
the list is enough, since every well-formed sequence is non-empty. -/
def valid_utf8_fuel : Nat → List Nat → Bool
  | _, [] => true
  | 0, _ :: _ => false
  | fuel + 1, b :: rest =>
    match utf8_first (b :: rest) with
    | some rem => valid_utf8_fuel fuel rem
    | none => false

/-- Validity of a byte sequence as UTF-8: it decomposes into well-formed
encoded code points.  This is the guarantee that
`String::from_utf8_unchecked` in the OsString classifier relies on. -/
def valid_utf8 (l : List Nat) : Bool := valid_utf8_fuel l.length l

/-- One operation on an argument stream: either an `Args::next` call, or a
full resolution of a named option through `NamedArgument::parse`. -/
inductive StreamOp (N T U : Type) where
  | advance
  | resolve (name : N) (data : Option T) (f : Handler T U)

/-- The stream state reached after one operation. -/
def StreamOp.apply {N T U : Type} (pa : T → Except T (ParsedArg N T)) (s : Args T) :
    StreamOp N T U → Args T
  | .advance => (Args.next pa s).2
  | .resolve name data f => (NamedArgument.parse name data s f).2

/-- The stream state reached after a sequence of operations. -/
def runOps {N T U : Type} (pa : T → Except T (ParsedArg N T))
    (ops : List (StreamOp N T U)) (s : Args T) : Args T :=
  ops.foldl (fun s op => op.apply pa s) s

/-- Validity of an option name at byte level, exactly the condition checked
by the OsString classifier: non-empty, all bytes in the name character
class, not starting and not ending with a dash. -/
def validName (n : List Nat) : Bool :=
  !n.isEmpty && n.all byte_is_arg_name && n.headD 0 != 45 && n.getLastD 0 != 45

/-- Validity of an option name at character level (the same condition on a
String token). -/
def validNameChr (n : List Char) : Bool :=
  !n.isEmpty && n.all is_arg_name && n.headD 'a' != '-' && n.getLastD 'a' != '-'

/-- The token suffix that encodes an optional inline value: nothing for no
value, an `=` byte followed by the value bytes otherwise. -/
def eq_suffix : Option (List Nat) → List Nat
  | none => []
  | some v => 61 :: v

/-- Character-level version of `eq_suffix`. -/
def eq_suffix_chr : Option (List Char) → List Char
  | none => []
  | some v => '=' :: v

/-- Models `i32::from_str` from the Rust standard library (an external
collaborator of the end-to-end tests): an optional sign followed by at
least one decimal digit, within the `i32` range. -/
def parse_i32_digits (acc : Nat) : List Char → Option Nat
  | [] => some acc
  | c :: rest =>
    if '0' ≤ c ∧ c ≤ '9' then parse_i32_digits (acc * 10 + (c.toNat - 48)) rest
    else none

/-- Models `i32::from_str` (sign and range handling). -/
def parse_i32 (s : List Char) : Option Int :=
  match s with
  | [] => none
  | '-' :: rest =>
    match rest, parse_i32_digits 0 rest with
    | _ :: _, some n => if (n : Int) ≤ 2147483648 then some (-(n : Int)) else none
    | _, _ => none
  | '+' :: rest =>
    match rest, parse_i32_digits 0 rest with
    | _ :: _, some n => if (n : Int) ≤ 2147483647 then some ((n : Int)) else none
    | _, _ => none
  | _ =>
    match parse_i32_digits 0 s with
    | some n => if (n : Int) ≤ 2147483647 then some ((n : Int)) else none
    | none => none

/-- Embeds the accumulated state of the `parse_args` test driver in
src/lib.rs. -/
structure Parsed where
  positional : List (List Char)
  flag : Bool
  xvalue : Option Int
deriving DecidableEq

/-- Embeds the handler closure of the `parse_args` test driver in
src/lib.rs: `flag` takes no value, `x` takes an integer value obtained
through `as_str` (always Unicode for String tokens), anything else is
unknown. -/
def testHandler (acc : Parsed) (name : List Char) : Handler (List Char) Parsed :=
  if name = ['f', 'l', 'a', 'g'] then .noValue (.ok { acc with flag := true })
  else if name = ['x'] then
    .withValue (fun r =>
      match r with
      | .error e => .error e
      | .ok v =>
        match parse_i32 v with
        | some m => .ok { acc with xvalue := some m }
        | none => .error .InvalidValue)
  else .noValue (.error .Unknown)

/-- Embeds the `parse_args` loop of the test driver in src/lib.rs, with a
fuel parameter bounding the number of iterations (any fuel larger than the
number of remaining tokens is enough). -/
def parse_args_loop (fuel : Nat) (s : Args (List Char)) (acc : Parsed) :
    Except (UsageError (List Char) (List Char)) Parsed :=
  match fuel with
  | 0 => .ok acc
  | fuel + 1 =>
    match Args.next parse_arg_string s with
    | (.Positional x, s2) =>
      parse_args_loop fuel s2 { acc with positional := acc.positional ++ [x] }
    | (.Named name data, s2) =>
      match NamedArgument.parse name data s2 (testHandler acc name) with
      | (.ok acc2, s3) => parse_args_loop fuel s3 acc2
      | (.error e, _) => .error e
    | (.End, _) => .ok acc
    | (.Error e, _) => .error e

/-! ### Helper lemmas -/

theorem byte_61_not_arg_name : byte_is_arg_name 61 = false := by decide

theorem chr_eq_not_arg_name : is_arg_name '=' = false := by decide

theorem all_arg_name_ne_61 {n : List Nat} (h : n.all byte_is_arg_name = true) :
    ∀ b ∈ n, b ≠ 61 := by
  intro b hb heq
  rw [List.all_eq_true] at h
  have hbn := h b hb
  rw [heq, byte_61_not_arg_name] at hbn
  exact Bool.false_ne_true hbn

theorem all_arg_name_ne_eq_chr {n : List Char} (h : n.all is_arg_name = true) :
    ∀ b ∈ n, b ≠ '=' := by
  intro b hb heq
  rw [List.all_eq_true] at h
  have hbn := h b hb
  rw [heq, chr_eq_not_arg_name] at hbn
  exact Bool.false_ne_true hbn

theorem splitValue_eq_suffix (n : List Nat) (v : Option (List Nat))
    (h : ∀ b ∈ n, b ≠ 61) : splitValue (n ++ eq_suffix v) = (n, v) := by
  induction n with
  | nil =>
    cases v with
    | none => simp [splitValue, eq_suffix]
    | some val => simp [splitValue, eq_suffix]
  | cons b rest ih =>
    have hb : b ≠ 61 := h b (List.mem_cons_self b rest)
    simp only [List.cons_append, splitValue, if_neg hb]
    simp [List.append_eq, ih (fun x hx => h x (List.mem_cons_of_mem _ hx))]

theorem splitValueChr_eq_suffix (n : List Char) (v : Option (List Char))
    (h : ∀ b ∈ n, b ≠ '=') : splitValueChr (n ++ eq_suffix_chr v) = (n, v) := by
  induction n with
  | nil =>
    cases v with
    | none => simp [splitValueChr, eq_suffix_chr]
    | some val => simp [splitValueChr, eq_suffix_chr]
  | cons b rest ih =>
    have hb : b ≠ '=' := h b (List.mem_cons_self b rest)
    simp only [List.cons_append, splitValueChr, if_neg hb]
    simp [List.append_eq, ih (fun x hx => h x (List.mem_cons_of_mem _ hx))]

theorem validName_spec {n : List Nat} (h : validName n = true) :
    n ≠ [] ∧ n.all byte_is_arg_name = true ∧ n.headD 0 ≠ 45 ∧ n.getLastD 0 ≠ 45 := by
  simp only [validName, Bool.and_eq_true, Bool.not_eq_true', bne_iff_ne] at h
  exact ⟨by simpa [List.isEmpty_iff] using h.1.1.1, h.1.1.2, h.1.2, h.2⟩

theorem validNameChr_spec {n : List Char} (h : validNameChr n = true) :
    n ≠ [] ∧ n.all is_arg_name = true ∧ n.headD 'a' ≠ '-' ∧ n.getLastD 'a' ≠ '-' := by
  simp only [validNameChr, Bool.and_eq_true, Bool.not_eq_true', bne_iff_ne] at h
  exact ⟨by simpa [List.isEmpty_iff] using h.1.1.1, h.1.1.2, h.1.2, h.2⟩

theorem parse_os_body_valid (s n : List Nat) (v : Option (List Nat))
    (h : validName n = true) :
    parse_os_body s (n ++ eq_suffix v) = .ok (.Named n v) := by
  obtain ⟨h1, h2, h3, h4⟩ := validName_spec h
  simp only [parse_os_body, splitValue_eq_suffix n v (all_arg_name_ne_61 h2)]
  rw [if_neg]
  push_neg
  exact ⟨fun hlen => h1 (List.length_eq_zero.mp hlen), h3, h4, by simp [h2]⟩

theorem parse_string_body_valid (s n : List Char) (v : Option (List Char))
    (h : validNameChr n = true) :
    parse_string_body s (n ++ eq_suffix_chr v) = .ok (.Named n v) := by
  obtain ⟨h1, h2, h3, h4⟩ := validNameChr_spec h
  simp only [parse_string_body, splitValueChr_eq_suffix n v (all_arg_name_ne_eq_chr h2)]
  rw [if_neg]
  push_neg
  exact ⟨by simpa [List.isEmpty_iff] using h1, by simp [h2]⟩

theorem parse_arg_os_single (n sfx : List Nat) (hn : n ≠ []) (hh : n.headD 0 ≠ 45) :
    parse_arg_os (45 :: (n ++ sfx)) = parse_os_body (45 :: (n ++ sfx)) (n ++ sfx) := by
  obtain ⟨b, n', rfl⟩ : ∃ b n', n = b :: n' := by
    cases n with
    | nil => exact absurd rfl hn
    | cons b n' => exact ⟨b, n', rfl⟩
  have hb : b ≠ 45 := by simpa using hh
  simp [parse_arg_os, hb]

theorem parse_arg_os_double (n sfx : List Nat) (hn : n ≠ []) :
    parse_arg_os (45 :: 45 :: (n ++ sfx)) = parse_os_body (45 :: 45 :: (n ++ sfx)) (n ++ sfx) := by
  obtain ⟨b, n', rfl⟩ : ∃ b n', n = b :: n' := by
    cases n with
    | nil => exact absurd rfl hn
    | cons b n' => exact ⟨b, n', rfl⟩
  simp [parse_arg_os]

theorem parse_arg_string_single (n sfx : List Char) (hn : n ≠ []) (hh : n.headD 'a' ≠ '-') :
    parse_arg_string ('-' :: (n ++ sfx)) = parse_string_body ('-' :: (n ++ sfx)) (n ++ sfx) := by
  obtain ⟨b, n', rfl⟩ : ∃ b n', n = b :: n' := by
    cases n with
    | nil => exact absurd rfl hn
    | cons b n' => exact ⟨b, n', rfl⟩
  have hb : b ≠ '-' := by simpa using hh
  simp [parse_arg_string, hb]

theorem parse_arg_string_double (n sfx : List Char) (hn : n ≠ []) :
    parse_arg_string ('-' :: '-' :: (n ++ sfx)) =
      parse_string_body ('-' :: '-' :: (n ++ sfx)) (n ++ sfx) := by
  obtain ⟨b, n', rfl⟩ : ∃ b n', n = b :: n' := by
    cases n with
    | nil => exact absurd rfl hn
    | cons b n' => exact ⟨b, n', rfl⟩
  simp [parse_arg_string]

theorem parse_arg_os_named (n : List Nat) (v : Option (List Nat)) (h : validName n = true) :
    parse_arg_os (45 :: (n ++ eq_suffix v)) = .ok (.Named n v) ∧
    parse_arg_os (45 :: 45 :: (n ++ eq_suffix v)) = .ok (.Named n v) := by
  obtain ⟨h1, _, h3, _⟩ := validName_spec h
  rw [parse_arg_os_single n _ h1 h3, parse_arg_os_double n _ h1,
    parse_os_body_valid _ n v h, parse_os_body_valid _ n v h]
  exact ⟨rfl, rfl⟩

theorem parse_arg_string_named (n : List Char) (v : Option (List Char))
    (h : validNameChr n = true) :
    parse_arg_string ('-' :: (n ++ eq_suffix_chr v)) = .ok (.Named n v) ∧
    parse_arg_string ('-' :: '-' :: (n ++ eq_suffix_chr v)) = .ok (.Named n v) := by
  obtain ⟨h1, _, h3, _⟩ := validNameChr_spec h
  rw [parse_arg_string_single n _ h1 h3, parse_arg_string_double n _ h1,
    parse_string_body_valid _ n v h, parse_string_body_valid _ n v h]
  exact ⟨rfl, rfl⟩

theorem parse_arg_os_error_eq {t e : List Nat} (h : parse_arg_os t = .error e) : e = t := by
  simp only [parse_arg_os, parse_os_body] at h
  split at h
  · exact Except.noConfusion h
  · split at h
    · split at h
      · injection h with h2
        exact h2.symm
      · exact Except.noConfusion h
    · split at h
      · exact Except.noConfusion h
      · split at h
        · injection h with h2
          exact h2.symm
        · exact Except.noConfusion h

theorem next_preserves_disabled {N T : Type} (pa : T → Except T (ParsedArg N T))
    (s : Args T) (h : s.allow_options = false) :
    (Args.next pa s).2.allow_options = false := by
  obtain ⟨args, allow⟩ := s
  cases allow with
  | true => exact absurd h (by simp)
  | false =>
    cases args with
    | nil => rfl
    | cons a rest => rfl

theorem parse_preserves_allow {N T U : Type} (name : N) (data : Option T) (s : Args T)
    (f : Handler T U) :
    (NamedArgument.parse name data s f).2.allow_options = s.allow_options := by
  cases f with
  | noValue r =>
    cases r with
    | ok u =>
      by_cases hd : data.isNone
      · simp [NamedArgument.parse, hd]
      · simp [NamedArgument.parse, hd]
    | error e => rfl
  | withValue k =>
    simp only [NamedArgument.parse]
    split <;> rfl

theorem runOps_preserves_disabled {N T U : Type} (pa : T → Except T (ParsedArg N T))
    (ops : List (StreamOp N T U)) (s : Args T) (h : s.allow_options = false) :
    (runOps pa ops s).allow_options = false := by
  induction ops generalizing s with
  | nil => exact h
  | cons op rest ih =>
    refine ih _ ?_
    cases op with
    | advance => exact next_preserves_disabled pa s h
    | resolve name data f => exact (parse_preserves_allow name data s f).trans h

theorem mem_splitValue_fst {body : List Nat} {b : Nat} (h : b ∈ (splitValue body).1) :
    b ∈ body := by
  induction body with
  | nil => simp [splitValue] at h
  | cons c rest ih =>
    by_cases hc : c = 61
    · simp [splitValue, hc] at h
    · simp only [splitValue, if_neg hc, List.mem_cons] at h
      rcases h with h | h
      · simp [h]
      · exact List.mem_cons_of_mem _ (ih h)

set_option maxRecDepth 4000 in
theorem byte_arg_name_ascii : ∀ b : Nat, b < 256 → byte_is_arg_name b = true → b ≤ 127 := by
  decide

theorem utf8_first_ascii (b : Nat) (rest : List Nat) (hb : b ≤ 127) :
    utf8_first (b :: rest) = some rest := by
  simp [utf8_first, hb]

theorem ascii_valid_fuel : ∀ (fuel : Nat) (l : List Nat), (∀ b ∈ l, b ≤ 127) →
    l.length ≤ fuel → valid_utf8_fuel fuel l = true := by
  intro fuel
  induction fuel with
  | zero =>
    intro l h hl
    cases l with
    | nil => rfl
    | cons b rest => simp at hl
  | succ fuel ih =>
    intro l h hl
    cases l with
    | nil => rfl
    | cons b rest =>
      have hb : b ≤ 127 := h b (List.mem_cons_self b rest)
      simp only [valid_utf8_fuel, utf8_first_ascii b rest hb]
      exact ih rest (fun x hx => h x (List.mem_cons_of_mem _ hx))
        (by simpa using Nat.le_of_succ_le_succ hl)

theorem ascii_valid_utf8 {l : List Nat} (h : ∀ b ∈ l, b ≤ 127) : valid_utf8 l = true :=
  ascii_valid_fuel l.length l h le_rfl

/-! ### Claim theorems -/

/-- C1: the claim states that for both the String and the OsString
classifier, a candidate name that is empty, contains a byte outside the
letter/digit/hyphen/underscore class, or starts or ends with a hyphen
makes classification fail with the original token returned.  The code
violates this: on the token consisting of dash, letter a, dash, the
String classifier extracts the name a-dash (which ends with a hyphen) and
accepts it as a Named option, while the OsString classifier rejects the
same token and returns it unchanged.  The String implementation simply
has no leading/trailing-hyphen check. -/
theorem C1_string_classifier_accepts_trailing_hyphen :
    parse_arg_string ['-', 'a', '-'] = .ok (.Named ['a', '-'] none) ∧
    parse_arg_os [45, 97, 45] = .error [45, 97, 45] := by
  constructor
  · rfl
  · rfl

/-- C2: resolving the value of a named option handle: with an inline value
present it returns that value and leaves the remaining token sequence
untouched; with no inline value and a non-empty remaining sequence it
removes exactly one token (length decreases by one) and returns it
verbatim, whatever its shape, recording it in the handle; with no inline
value and an exhausted sequence it fails with MissingParameter. -/
theorem C2_value_resolution {T : Type} (d : Option T) (l : List T) (c : Bool) :
    (∀ v, d = some v →
      Value.value { data := d, args := l, consumed := c } =
        (.ok v, { data := some v, args := l, consumed := true })) ∧
    (∀ x rest, d = none → l = x :: rest →
      Value.value { data := d, args := l, consumed := c } =
        (.ok x, { data := some x, args := rest, consumed := true }) ∧
      rest.length + 1 = l.length) ∧
    (d = none → l = [] →
      Value.value { data := d, args := l, consumed := c } =
        (.error .MissingParameter, { data := none, args := [], consumed := true })) := by
  refine ⟨?_, ?_, ?_⟩
  · rintro v rfl
    rfl
  · rintro x rest rfl rfl
    exact ⟨rfl, by simp⟩
  · rintro rfl rfl
    rfl

/-- C2 witness: pulling the value of an option with no inline value from a
stream whose next token itself starts with a dash consumes exactly that
token and returns it unaltered. -/
theorem C2_value_resolution_witness :
    Value.value { data := none, args := [[45, 102]], consumed := false } =
      (.ok [45, 102], { data := some [45, 102], args := ([] : List (List Nat)), consumed := true }) :=
  ((C2_value_resolution none [[45, 102]] false).2.1 [45, 102] [] rfl rfl).1

/-- C5: resolving a named option through the no-value path (the handler
succeeds without requesting the value) succeeds exactly when no inline
value was present; with an inline value it fails with UnexpectedParameter
carrying the option name, and in both cases the stream is returned
unchanged (no token is consumed). -/
theorem C5_no_value_path {N T U : Type} (name : N) (s : Args T) (u : U) :
    (NamedArgument.parse name none s (.noValue (.ok u)) = (.ok u, s)) ∧
    (∀ v, NamedArgument.parse name (some v) s (.noValue (.ok u)) =
      (.error (.InvalidOption name (some v) .UnexpectedParameter), s)) := by
  exact ⟨rfl, fun v => rfl⟩

/-- C3: when the stream yields the end-of-options marker while options
are enabled, option parsing is switched off and the immediately following
raw token is emitted as Positional without classification if one exists,
or End if the sequence is exhausted; the marker itself is never emitted. -/
theorem C3_end_of_flags_transition {N T : Type} (pa : T → Except T (ParsedArg N T))
    (s : Args T) (tok : T) (rest : List T)
    (h1 : s.allow_options = true) (h2 : s.args = tok :: rest)
    (h3 : pa tok = .ok .EndOfFlags) :
    (rest = [] → Args.next pa s = (.End, { args := [], allow_options := false })) ∧
    (∀ x rest2, rest = x :: rest2 →
      Args.next pa s = (.Positional x, { args := rest2, allow_options := false })) := by
  obtain ⟨sargs, sallow⟩ := s
  simp only [] at h1 h2
  subst h1
  subst h2
  constructor
  · rintro rfl
    simp [Args.next, h3]
  · rintro x rest2 rfl
    simp [Args.next, h3]

/-- C3 witness: a stream holding the end-of-options marker followed by one
letter token emits that token as Positional with options disabled. -/
theorem C3_end_of_flags_transition_witness :
    Args.next parse_arg_os { args := [[45, 45], [97]], allow_options := true } =
      (.Positional [97], { args := [], allow_options := false }) :=
  (C3_end_of_flags_transition parse_arg_os
    { args := [[45, 45], [97]], allow_options := true } [45, 45] [[97]]
    rfl rfl (by rfl)).2 [97] [] rfl

/-- C4: once options are disabled they stay disabled under every sequence
of stream operations (advances and named-option resolutions), and every
advance on a non-empty remainder emits the popped token as Positional
unchanged whatever its shape; concretely, after one end-of-options marker
a second marker token is emitted as positional text, not treated as a
marker. -/
theorem C4_options_disabled_forever {N T U : Type} (pa : T → Except T (ParsedArg N T))
    (s : Args T) (h : s.allow_options = false) :
    (∀ ops : List (StreamOp N T U), (runOps pa ops s).allow_options = false) ∧
    (∀ x rest, s.args = x :: rest →
      Args.next pa s = (.Positional x, { args := rest, allow_options := false })) ∧
    Args.next parse_arg_os { args := [[45, 45], [45, 45], [45, 97]], allow_options := true } =
      (.Positional [45, 45], { args := [[45, 97]], allow_options := false }) := by
  refine ⟨fun ops => runOps_preserves_disabled pa ops s h, ?_, by rfl⟩
  rintro x rest h2
  obtain ⟨sargs, sallow⟩ := s
  simp only [] at h h2
  subst h
  subst h2
  simp [Args.next]

/-- C4 witness: a disabled stream stays disabled across two further
advances, and emits a token shaped like an option as plain Positional. -/
theorem C4_options_disabled_forever_witness :
    (runOps parse_arg_os
      ([StreamOp.advance, StreamOp.advance] : List (StreamOp (List Nat) (List Nat) Unit))
      { args := [[45, 102]], allow_options := false }).allow_options = false ∧
    Args.next parse_arg_os { args := [[45, 102]], allow_options := false } =
      (.Positional [45, 102], { args := [], allow_options := false }) :=
  ⟨(C4_options_disabled_forever parse_arg_os
      { args := [[45, 102]], allow_options := false } rfl).1 [.advance, .advance],
   (C4_options_disabled_forever (U := Unit) parse_arg_os
      { args := [[45, 102]], allow_options := false } rfl).2.1 [45, 102] [] rfl⟩

/-- C9: when advance meets a syntactically invalid option token, the
emitted error carries the offending token unaltered (the classifier
returns the original token on failure), the options flag is unchanged,
and the stream continues from the next remaining token, which a further
advance classifies exactly as it would in a stream that never held the
invalid token. -/
theorem C9_invalid_argument_frame (s : Args (List Nat)) (bad : List Nat)
    (rest : List (List Nat))
    (h1 : s.allow_options = true) (h2 : s.args = bad :: rest)
    (h3 : ∃ e, parse_arg_os bad = .error e) :
    Args.next parse_arg_os s =
      (.Error (.InvalidArgument bad), { args := rest, allow_options := true }) ∧
    Args.next parse_arg_os (Args.next parse_arg_os s).2 =
      Args.next parse_arg_os { args := rest, allow_options := true } := by
  obtain ⟨e, he⟩ := h3
  rw [parse_arg_os_error_eq he] at he
  obtain ⟨sargs, sallow⟩ := s
  simp only [] at h1 h2
  subst h1
  subst h2
  have hn : Args.next parse_arg_os { args := bad :: rest, allow_options := true } =
      (.Error (.InvalidArgument bad), { args := rest, allow_options := true }) := by
    simp [Args.next, he]
  exact ⟨hn, by rw [hn]⟩

/-- C9 witness: the invalid token dash-equals is reported in the error and
the stream resumes with the following token, options still enabled. -/
theorem C9_invalid_argument_frame_witness :
    Args.next parse_arg_os { args := [[45, 61], [97]], allow_options := true } =
      (.Error (.InvalidArgument [45, 61]), { args := [[97]], allow_options := true }) :=
  (C9_invalid_argument_frame { args := [[45, 61], [97]], allow_options := true }
    [45, 61] [[97]] rfl rfl ⟨[45, 61], by rfl⟩).1

/-- C6: for every valid name the OsString classifier distinguishes three
outcomes for name-with-empty-inline-value, bare name, and name with
non-empty inline value: Named with an explicit empty value, Named with no
value, and Named with that non-empty value; the three results are pairwise
distinct, and resolving the explicit-empty case returns exactly the empty
byte string without pulling anything from the stream. -/
theorem C6_empty_none_nonempty_distinct (n v : List Nat) (l : List (List Nat)) (c : Bool)
    (hn : validName n = true) (hv : v ≠ []) :
    parse_arg_os (45 :: (n ++ [61])) = .ok (.Named n (some [])) ∧
    parse_arg_os (45 :: n) = .ok (.Named n none) ∧
    parse_arg_os (45 :: (n ++ 61 :: v)) = .ok (.Named n (some v)) ∧
    ((ParsedArg.Named (N := List Nat) n (some ([] : List Nat)) ≠ .Named n none) ∧
      (ParsedArg.Named (N := List Nat) n (some v) ≠ .Named n (some [])) ∧
      (ParsedArg.Named (N := List Nat) n (some v) ≠ .Named n none)) ∧
    Value.value { data := some ([] : List Nat), args := l, consumed := c } =
      (.ok ([] : List Nat), { data := some [], args := l, consumed := true }) := by
  refine ⟨?_, ?_, ?_, ⟨?_, ?_, ?_⟩, rfl⟩
  · simpa [eq_suffix] using (parse_arg_os_named n (some []) hn).1
  · simpa [eq_suffix] using (parse_arg_os_named n none hn).1
  · simpa [eq_suffix] using (parse_arg_os_named n (some v) hn).1
  · simp
  · simp [hv]
  · simp

/-- C6 witness: for the one-letter name a, the three token shapes produce
the three distinct outcomes; shown here for the explicit-empty form. -/
theorem C6_empty_none_nonempty_distinct_witness :
    parse_arg_os [45, 97, 61] = .ok (.Named [97] (some [])) ∧
    parse_arg_os [45, 97] = .ok (.Named [97] none) :=
  ⟨(C6_empty_none_nonempty_distinct [97] [98] [] false (by decide) (by decide)).1,
   (C6_empty_none_nonempty_distinct [97] [98] [] false (by decide) (by decide)).2.1⟩

/-- C7: when a named option's value was requested (inline or pulled from
the stream) and the handler then fails, the result is InvalidOption
carrying the option name and the resolved value; a value pulled from the
stream is retained in the handle and appears in the error payload, and
nothing further is consumed.  Concretely, the end-to-end driver on the
input dash-x followed by 0q, with x parsed as an integer, produces an
InvalidValue error naming x with offending value 0q. -/
theorem C7_invalid_value_error {N T U : Type} (name : N) (s : Args T)
    (k : Except OptionError T → Except OptionError U) (e : OptionError) :
    (∀ v, k (.ok v) = .error e →
      NamedArgument.parse name (some v) s (.withValue k) =
        (.error (.InvalidOption name (some v) e), s)) ∧
    (∀ x rest, s.args = x :: rest → k (.ok x) = .error e →
      NamedArgument.parse name none s (.withValue k) =
        (.error (.InvalidOption name (some x) e), { s with args := rest })) ∧
    parse_args_loop 3 (Args.fromList [['-', 'x'], ['0', 'q']])
        { positional := [], flag := false, xvalue := none } =
      .error (.InvalidOption ['x'] (some ['0', 'q']) .InvalidValue) := by
  refine ⟨?_, ?_, by rfl⟩
  · intro v hk
    simp [NamedArgument.parse, Value.value, hk]
  · intro x rest h2 hk
    obtain ⟨sargs, sallow⟩ := s
    simp only [] at h2
    subst h2
    simp [NamedArgument.parse, Value.value, hk]

/-- C7 witness: an inline value rejected by the handler is reported inside
InvalidOption together with the name, with the stream unchanged. -/
theorem C7_invalid_value_error_witness :
    NamedArgument.parse (U := Unit) ['x'] (some ['a'])
      { args := ([] : List (List Char)), allow_options := true }
      (.withValue (fun _ => .error .Unknown)) =
      (.error (.InvalidOption ['x'] (some ['a']) .Unknown),
        { args := [], allow_options := true }) :=
  (C7_invalid_value_error (U := Unit) ['x'] { args := [], allow_options := true }
    (fun _ => .error .Unknown) .Unknown).1 ['a'] rfl

/-- C8: for every valid name and optional inline value, the single-dash and
double-dash spellings of the token classify to the same Named result, for
the OsString classifier (byte level) and for the String classifier
(character level) alike. -/
theorem C8_single_double_dash_equiv (n : List Nat) (v : Option (List Nat))
    (m : List Char) (w : Option (List Char))
    (hn : validName n = true) (hm : validNameChr m = true) :
    parse_arg_os (45 :: (n ++ eq_suffix v)) = .ok (.Named n v) ∧
    parse_arg_os (45 :: 45 :: (n ++ eq_suffix v)) = .ok (.Named n v) ∧
    parse_arg_string ('-' :: (m ++ eq_suffix_chr w)) = .ok (.Named m w) ∧
    parse_arg_string ('-' :: '-' :: (m ++ eq_suffix_chr w)) = .ok (.Named m w) :=
  ⟨(parse_arg_os_named n v hn).1, (parse_arg_os_named n v hn).2,
   (parse_arg_string_named m w hm).1, (parse_arg_string_named m w hm).2⟩

/-- C8 witness: the name opt with value v classifies identically with one
and with two leading dashes, at byte and at character level. -/
theorem C8_single_double_dash_equiv_witness :
    parse_arg_os [45, 111, 112, 116, 61, 118] = .ok (.Named [111, 112, 116] (some [118])) ∧
    parse_arg_os [45, 45, 111, 112, 116, 61, 118] = .ok (.Named [111, 112, 116] (some [118])) ∧
    parse_arg_string ['-', 'o', 'p', 't'] = .ok (.Named ['o', 'p', 't'] none) ∧
    parse_arg_string ['-', '-', 'o', 'p', 't'] = .ok (.Named ['o', 'p', 't'] none) :=
  ⟨(C8_single_double_dash_equiv [111, 112, 116] (some [118]) ['o', 'p', 't'] none
      (by decide) (by decide)).1,
   (C8_single_double_dash_equiv [111, 112, 116] (some [118]) ['o', 'p', 't'] none
      (by decide) (by decide)).2.1,
   (C8_single_double_dash_equiv [111, 112, 116] (some [118]) ['o', 'p', 't'] none
      (by decide) (by decide)).2.2.1,
   (C8_single_double_dash_equiv [111, 112, 116] (some [118]) ['o', 'p', 't'] none
      (by decide) (by decide)).2.2.2⟩

theorem parse_os_body_named_inv {s body n : List Nat} {v : Option (List Nat)}
    (h : parse_os_body s body = .ok (.Named n v)) :
    n.all byte_is_arg_name = true ∧ ∀ b ∈ n, b ∈ body := by
  simp only [parse_os_body] at h
  split at h
  · exact Except.noConfusion h
  · rename_i hcond
    push_neg at hcond
    injection h with h
    cases h
    exact ⟨by simpa using hcond.2.2.2, fun b hb => mem_splitValue_fst hb⟩

theorem parse_arg_os_named_inv {t n : List Nat} {v : Option (List Nat)}
    (h : parse_arg_os t = .ok (.Named n v)) :
    n.all byte_is_arg_name = true ∧ ∀ b ∈ n, b ∈ t := by
  simp only [parse_arg_os] at h
  split at h
  · exact absurd h (by simp)
  · split at h
    · obtain ⟨hall, hmem⟩ := parse_os_body_named_inv h
      exact ⟨hall, fun b hb => List.mem_of_mem_drop (hmem b hb)⟩
    · split at h
      · exact absurd h (by simp)
      · obtain ⟨hall, hmem⟩ := parse_os_body_named_inv h
        exact ⟨hall, fun b hb => List.mem_of_mem_drop (hmem b hb)⟩

theorem parse_parse_arg_named_inv {t n : List Nat} {v : Option (List Nat)}
    (h : Parse.parse_arg t = .ok (.Named n v)) :
    n.all byte_is_arg_name = true ∧ ∀ b ∈ n, b ∈ t := by
  simp only [Parse.parse_arg] at h
  repeat' split at h
  · exact absurd h (by simp)
  · exact absurd h (by simp)
  · exact absurd h (by simp)
  · rename_i hcond
    push_neg at hcond
    injection h with h
    cases h
    exact ⟨by simpa using hcond.2.2.2,
      fun b hb => List.mem_of_mem_drop (mem_splitValue_fst hb)⟩
  · exact absurd h (by simp)
  · rename_i hcond
    push_neg at hcond
    injection h with h
    cases h
    exact ⟨by simpa using hcond.2.2.2,
      fun b hb => List.mem_of_mem_drop (mem_splitValue_fst hb)⟩

/-- C10: every name accepted as Named by the byte-level classifier (both
the OsString ArgString implementation and the parse-module revision)
consists only of bytes in the letter/digit/hyphen/underscore class, all
ASCII, and is therefore valid UTF-8, so the unchecked UTF-8 decode of the
name cannot produce an invalid string; the inline value, by contrast, is
passed through as opaque bytes: a non-UTF-8 value such as byte 255 is
accepted verbatim. -/
theorem C10_named_name_ascii_utf8 :
    (∀ t n v, t.all (fun b => decide (b < 256)) = true →
      parse_arg_os t = .ok (.Named n v) →
      n.all byte_is_arg_name = true ∧ valid_utf8 n = true) ∧
    (∀ t n v, t.all (fun b => decide (b < 256)) = true →
      Parse.parse_arg t = .ok (.Named n v) →
      n.all byte_is_arg_name = true ∧ valid_utf8 n = true) ∧
    (parse_arg_os [45, 97, 61, 255] = .ok (.Named [97] (some [255])) ∧
      valid_utf8 [255] = false) := by
  refine ⟨?_, ?_, by rfl, by rfl⟩
  · intro t n v hbytes h
    obtain ⟨hall, hmem⟩ := parse_arg_os_named_inv h
    refine ⟨hall, ascii_valid_utf8 fun b hbn => ?_⟩
    have h256 : b < 256 := by simpa using List.all_eq_true.mp hbytes b (hmem b hbn)
    exact byte_arg_name_ascii b h256 (List.all_eq_true.mp hall b hbn)
  · intro t n v hbytes h
    obtain ⟨hall, hmem⟩ := parse_parse_arg_named_inv h
    refine ⟨hall, ascii_valid_utf8 fun b hbn => ?_⟩
    have h256 : b < 256 := by simpa using List.all_eq_true.mp hbytes b (hmem b hbn)
    exact byte_arg_name_ascii b h256 (List.all_eq_true.mp hall b hbn)

/-- C10 witness: the accepted token dash-a yields the name consisting of
the single byte 97, which is in the name class and valid UTF-8. -/
theorem C10_named_name_ascii_utf8_witness :
    ([97] : List Nat).all byte_is_arg_name = true ∧ valid_utf8 [97] = true :=
  C10_named_name_ascii_utf8.1 [45, 97] [97] none (by decide) (by rfl)
